import Mathlib

/-
Verification of the KCSD2D estimation engine (src/KCSD2D.py) against its
natural-language specification.

The Python source is shallowly embedded over exact rationals (ℚ).  External
library primitives (scipy's cdist, numpy's linalg.norm, and the inversion
routines `faster_inverse` / `np.linalg.inv`, the latter two living in
utility_functions.py which is not part of the sources) are abstracted as
explicit function parameters; everything written in KCSD2D.py itself is
translated operation by operation.
-/

namespace KCSD2D

/-- Python-level failures that the embedded code can produce or that the spec
names.  `attributeError` models a read of a never-assigned attribute,
`unboundLocal` a read of a local variable that was never bound,
`linAlgError` numpy's singular-matrix failure.  `invalidBasisType` and
`invalidEstimationMode` are the spec's taxonomy names for the corresponding
failures (the source raises a bare `Exception` for the former and never
raises the latter). -/
inductive PyError where
  | attributeError
  | unboundLocal
  | linAlgError
  | invalidBasisType
  | invalidEstimationMode
  deriving DecidableEq, Repr

/-- `np.round` on an exact rational: round half to even (banker's rounding),
the IEEE-754 / numpy rounding rule. -/
def rnd (q : ℚ) : ℤ :=
  if q - ⌊q⌋ < 1/2 then ⌊q⌋
  else if (1/2 : ℚ) < q - ⌊q⌋ then ⌊q⌋ + 1
  else if ⌊q⌋ % 2 = 0 then ⌊q⌋ else ⌊q⌋ + 1

/-- `generated_potential` (KCSD2D.py lines 246-261), the lookup-table query:
`indices = np.uint16(np.round(dt_len * dist / dist_max))`,
`ind = np.maximum(0, np.minimum(indices, dt_len - 1))`, return
`dist_table[ind]`.  The `np.uint16` cast of the rounded (nonnegative) value
truncates to 16 bits, i.e. reduces mod 2^16; `np.maximum 0` is a no-op on an
unsigned index. -/
def generated_potential (dist_table : List ℚ) (dist_max : ℚ) (dist : ℚ) : ℚ :=
  let dt_len := dist_table.length
  let indices : ℕ := (rnd ((dt_len : ℚ) * dist / dist_max)).toNat % 65536
  let ind := min indices (dt_len - 1)
  dist_table.getD ind 0

/-- `np.arange(start, stop, step)` for a positive rational step: the values
`start + i * step` for `0 ≤ i < ⌈(stop - start)/step⌉`. -/
def arangeQ (start stop step : ℚ) : List ℚ :=
  (List.range (⌈(stop - start) / step⌉).toNat).map (fun i => start + (i : ℚ) * step)

/-- Insert into a sorted list (helper for `np.unique`). -/
def insertSorted (x : ℚ) : List ℚ → List ℚ
  | [] => [x]
  | y :: ys => if x ≤ y then x :: y :: ys else y :: insertSorted x ys

/-- Insertion sort (helper for `np.unique`). -/
def sortQ : List ℚ → List ℚ
  | [] => []
  | x :: xs => insertSorted x (sortQ xs)

/-- Drop adjacent duplicates in a sorted list (helper for `np.unique`). -/
def dedupAdj : List ℚ → List ℚ
  | [] => []
  | [x] => [x]
  | x :: y :: ys => if x = y then dedupAdj (y :: ys) else x :: dedupAdj (y :: ys)

/-- `np.unique`: sorted list of the distinct values. -/
def np_unique (l : List ℚ) : List ℚ := dedupAdj (sortQ l)

/-- `sparse_dist_table` (KCSD2D.py lines 142-167), the non-uniform index
sampling of the distance lookup table.  Literal translation:
`dense_step = 3`, `denser_step = 1`, `sparse_step = 9`,
`border1 = 0.9 * R/dist_max * dt_len`, `border2 = 1.3 * R/dist_max * dt_len`;
note that the arange between `border1` and `border2` uses `dense_step`
(the source passes `dense_step`, not `denser_step`, there), and that
`sparse_step/2` is Python-2 integer division `9/2 = 4`. -/
def sparse_dist_table (R dist_max : ℚ) (dt_len : ℕ) : List ℚ :=
  let dense_step : ℚ := 3
  let denser_step : ℚ := 1
  let sparse_step : ℚ := 9
  let border1 := 9/10 * R / dist_max * (dt_len : ℚ)
  let border2 := 13/10 * R / dist_max * (dt_len : ℚ)
  let xs := arangeQ 0 border1 dense_step
  let xs := xs ++ [border1]
  let zz := arangeQ (border1 + denser_step) border2 dense_step
  let xs := xs ++ zz
  let xs := xs ++ [border2, border2 + denser_step]
  let xs := xs ++ arangeQ (border2 + denser_step + 4) (dt_len : ℚ) sparse_step
  let xs := xs ++ [(dt_len : ℚ) + 1]
  np_unique xs

/-- A concrete 100-entry lookup table whose first and last entries differ,
used to exercise the lookup query. -/
def tblC3 : List ℚ := List.replicate 99 0 ++ [5]

/-- `update_b_pot` step 1 (KCSD2D.py lines 188-198): `b_pot` maps every
pairwise source-to-electrode distance through the lookup table
(`generated_potential`).  The distance matrix itself is produced by
`scipy.spatial.distance.cdist(src.T, ele_pos, 'euclidean')`, an external
library call, so it enters as the parameter `dists`
(shape #sources × #electrodes). -/
def b_pot {ns ne : ℕ} (tbl : List ℚ) (dist_max : ℚ)
    (dists : Matrix (Fin ns) (Fin ne) ℚ) : Matrix (Fin ns) (Fin ne) ℚ :=
  Matrix.of fun s e => generated_potential tbl dist_max (dists s e)

/-- `update_b_pot` step 2 (KCSD2D.py line 199):
`k_pot = np.dot(b_pot.T, b_pot)`. -/
def k_pot {ns ne : ℕ} (tbl : List ℚ) (dist_max : ℚ)
    (dists : Matrix (Fin ns) (Fin ne) ℚ) : Matrix (Fin ne) (Fin ne) ℚ :=
  (b_pot tbl dist_max dists).transpose * b_pot tbl dist_max dists

/-- The `try: faster_inverse ... except LinAlgError: np.linalg.inv ...` block of
`values` (KCSD2D.py lines 119-125).  `faster_inverse` lives in
utility_functions.py (not among the sources) and `np.linalg.inv` is numpy, so
both are parameters; a `linAlgError` from the fast routine falls back to the
regular routine, any other exception propagates. -/
def solve_k_inv {n : ℕ}
    (fastInv npInv : Matrix (Fin n) (Fin n) ℚ → Except PyError (Matrix (Fin n) (Fin n) ℚ))
    (A : Matrix (Fin n) (Fin n) ℚ) : Except PyError (Matrix (Fin n) (Fin n) ℚ) :=
  match fastInv A with
  | .ok m => .ok m
  | .error .linAlgError => npInv A
  | .error e => .error e

/-- The accumulation loop of `values` (KCSD2D.py lines 130-133): for each time
column `t`, `beta = np.dot(k_inv, pots[:, t])` and
`estimation[:, t] += beta[i] * estimation_table[:, i]` summed over the
electrodes `i`. -/
def estimationLoop {n nt ng : ℕ} (kInv : Matrix (Fin n) (Fin n) ℚ)
    (pots : Matrix (Fin n) (Fin nt) ℚ) (tbl : Matrix (Fin ng) (Fin n) ℚ) :
    Matrix (Fin ng) (Fin nt) ℚ :=
  Matrix.of fun g t => ∑ i, kInv.mulVec (fun j => pots j t) i * tbl g i

/-- The kernel matrices (and lambda) held by a KCSD2D instance when `values`
runs.  `k_interp_pot` is an `Option` because the attribute is only assigned by
`update_b_interp_pot`, and reading it when unassigned is an AttributeError. -/
structure EngineMats (ng n : ℕ) where
  k_pot : Matrix (Fin n) (Fin n) ℚ
  k_interp_cross : Matrix (Fin ng) (Fin n) ℚ
  k_interp_pot : Option (Matrix (Fin ng) (Fin n) ℚ)
  lambd : ℚ

/-- `method` (KCSD2D.py lines 98-104): runs `create_lookup`, `update_b_pot`,
`update_b_src` — producing `k_pot` and `k_interp_cross` — but the
`update_b_interp_pot()` call is commented out, so `k_interp_pot` is never
assigned. -/
def method_mats {ng n : ℕ} (kp : Matrix (Fin n) (Fin n) ℚ)
    (kc : Matrix (Fin ng) (Fin n) ℚ) (lambd : ℚ) : EngineMats ng n :=
  { k_pot := kp, k_interp_cross := kc, k_interp_pot := none, lambd := lambd }

/-- `values` (KCSD2D.py lines 106-135).  Mode dispatch: `'CSD'` selects
`k_interp_cross`; `'POT'` reads `k_interp_pot` (AttributeError when it was
never assigned); any other mode only prints a message, leaving the local
`estimation_table` unbound.  Then `(k_pot + lambd*I)` is inverted through
`solve_k_inv`, and the estimation loop runs; with an unbound
`estimation_table` the first loop iteration raises UnboundLocalError (when
there are zero time columns or zero electrodes the loop body never runs and
the zero array is returned). -/
def values {ng n nt : ℕ}
    (fastInv npInv : Matrix (Fin n) (Fin n) ℚ → Except PyError (Matrix (Fin n) (Fin n) ℚ))
    (e : EngineMats ng n) (pots : Matrix (Fin n) (Fin nt) ℚ) (mode : String) :
    Except PyError (Matrix (Fin ng) (Fin nt) ℚ) :=
  let tblE : Except PyError (Option (Matrix (Fin ng) (Fin n) ℚ)) :=
    if mode = "CSD" then .ok (some e.k_interp_cross)
    else if mode = "POT" then
      match e.k_interp_pot with
      | some m => .ok (some m)
      | none => .error .attributeError
    else .ok none
  match tblE with
  | .error er => .error er
  | .ok tblOpt =>
    match solve_k_inv fastInv npInv (e.k_pot + e.lambd • 1) with
    | .error er => .error er
    | .ok kInv =>
      match tblOpt with
      | some tbl => .ok (estimationLoop kInv pots tbl)
      | none => if nt = 0 ∨ n = 0 then .ok 0 else .error .unboundLocal

/-- The final `estimation.reshape(nx, ny, nt)` of `values` (KCSD2D.py line
134): C-order reshape of the flat grid dimension into `(nx, ny)`. -/
def reshapeGrid {nx ny nt : ℕ} (m : Matrix (Fin (nx * ny)) (Fin nt) ℚ)
    (x : Fin nx) (y : Fin ny) (t : Fin nt) : ℚ :=
  m ⟨x.1 * ny + y.1, by
    have h1 : x.1 * ny + y.1 < (x.1 + 1) * ny := by rw [Nat.succ_mul]; omega
    exact Nat.lt_of_lt_of_le h1 (Nat.mul_le_mul_right ny x.2)⟩ t

/-- The number of points `np.linspace` is asked for in `estimate_at`
(KCSD2D.py lines 65-68): `n = (vmax - vmin)/gd + 1`, truncated to an integer
by linspace. -/
def nLin (vmin vmax gd : ℚ) : ℕ := (⌊(vmax - vmin) / gd + 1⌋).toNat

/-- Shape of `space_X` (= `space_Y`) built by
`np.meshgrid(lin_x, lin_y)` in `estimate_at` (KCSD2D.py line 71):
`(len(lin_y), len(lin_x))`. -/
def spaceShape (xmin xmax ymin ymax gdX gdY : ℚ) : ℕ × ℕ :=
  (nLin ymin ymax gdY, nLin xmin xmax gdX)

/-- Shape of the array returned by `values`:
`estimation.reshape(nx, ny, nt)` where `(nx, ny) = space_X.shape`. -/
def values_shape (xmin xmax ymin ymax gdX gdY : ℚ) (nt : ℕ) : ℕ × ℕ × ℕ :=
  ((spaceShape xmin xmax ymin ymax gdX gdY).1,
   (spaceShape xmin xmax ymin ymax gdX gdY).2, nt)

/-- The `__main__` scenario of KCSD2D.py (lines 362-373) and of the spec's
end-to-end property: estimation bounds `[-2,2] × [-2,2]`, spacing
`gdX = gdY = 0.05`, seven electrodes, a single time column. -/
def scenario_values_shape : ℕ × ℕ × ℕ :=
  values_shape (-2) 2 (-2) 2 (1/20) (1/20) 1

/-- Modelled from the spec: `basis_types` is the dict defined in
KCSD2D_Helpers.py, which is not among the sources; its keys are taken from
the KCSD2D docstring — basis function type `'gauss'`, `'step'`,
`'gauss_lim'`. -/
def basis_types : List String := ["gauss", "step", "gauss_lim"]

/-- `place_basis` (KCSD2D.py lines 74-96): an unknown `source_type` raises
before anything else happens; otherwise the source grids are built (by
`make_src_2D` from KCSD2D_Helpers.py, abstracted as `mkGrids` since that file
is not among the sources). -/
def place_basis {α : Type} (srcType : String) (mkGrids : Unit → α) :
    Except PyError α :=
  if srcType ∈ basis_types then .ok (mkGrids ()) else .error .invalidBasisType

/-- The engine state read and written by `cross_validate`: current R and
lambda, the R-derived distance table and kernel matrices (numpy-style
untyped arrays), the measured potentials, electrode count and time-column
count. -/
structure CVState where
  n_obs : ℕ
  R : ℚ
  lambd : ℚ
  dist_table : List ℚ
  k_pot : ℕ → ℕ → ℚ
  k_cross : ℕ → ℕ → ℚ
  pots : ℕ → ℕ → ℚ
  nt : ℕ

/-- The R-dependent rebuild performed by `method()` inside `update_R`:
`create_lookup`, `update_b_pot`, `update_b_src` as functions of R (electrode
and source positions are fixed for the engine's lifetime). -/
structure Rebuild where
  tbl : ℚ → List ℚ
  kp : ℚ → ℕ → ℕ → ℚ
  kc : ℚ → ℕ → ℕ → ℚ

/-- `update_R` (KCSD2D.py lines 293-300): sets R, recomputes `dist_max` and
re-runs `method()`, rebuilding the distance table and both kernel matrices;
everything else (lambda, potentials, positions) is untouched. -/
def update_R (rb : Rebuild) (s : CVState) (R : ℚ) : CVState :=
  { s with R := R, dist_table := rb.tbl R, k_pot := rb.kp R, k_cross := rb.kc R }

/-- `update_lambda` (KCSD2D.py lines 304-307). -/
def update_lambda (s : CVState) (lambd : ℚ) : CVState := { s with lambd := lambd }

/-- `idx_train = range(n_obs); idx_train.remove(ii)` in the leave-one-out loop
(KCSD2D.py lines 345-346). -/
def loo_train (n ii : ℕ) : List ℕ := (List.range n).filter (fun x => decide (x ≠ ii))

/-- `B_new = np.matrix(B_train) + lambd*I` in `calc_error` (KCSD2D.py lines
317-321), where `B_train = k_pot[np.ix_(idx_train, idx_train)]`. -/
def cv_B_new (kp : ℕ → ℕ → ℚ) (lambd : ℚ) (idx_train : List ℕ) : List (List ℚ) :=
  (List.range idx_train.length).map fun a =>
    (List.range idx_train.length).map fun b =>
      kp (idx_train.getD a 0) (idx_train.getD b 0) + if a = b then lambd else 0

/-- Entry of a list-of-lists matrix. -/
def lm_get (A : List (List ℚ)) (i j : ℕ) : ℚ := (A.getD i []).getD j 0

/-- `calc_error` (KCSD2D.py lines 315-329): invert `B_new` with
`faster_inverse` alone (parameter `fi`; there is no try/except here, so its
exception propagates), take the first time column of
`beta_new = inv · V_train`, predict the held-out potentials from
`B_test = k_pot[np.ix_(idx_test, idx_train)]`, and return
`np.linalg.norm(V_est - V_test)` (numpy's norm is the parameter `nf`;
`idx_test` is always a singleton here, so the numpy broadcasting of
`V_est - V_test` is entrywise over the `nt` time columns). -/
def calc_error (fi : List (List ℚ) → Except PyError (List (List ℚ)))
    (nf : List (List ℚ) → ℚ) (kp pots : ℕ → ℕ → ℚ) (nt : ℕ) (lambd : ℚ)
    (idx_test idx_train : List ℕ) : Except PyError ℚ :=
  match fi (cv_B_new kp lambd idx_train) with
  | .error e => .error e
  | .ok Binv =>
    let m := idx_train.length
    let beta0 := (List.range m).map fun a =>
      ((List.range m).map fun k => lm_get Binv a k * pots (idx_train.getD k 0) 0).sum
    let V_est := idx_test.map fun it =>
      ((List.range m).map fun ii => beta0.getD ii 0 * kp it (idx_train.getD ii 0)).sum
    let diff := (List.range idx_test.length).map fun a =>
      (List.range nt).map fun t => V_est.getD a 0 - pots (idx_test.getD a 0) t
    .ok (nf diff)

/-- The `for ii in range(self.n_obs)` accumulation (KCSD2D.py lines 341-348):
`err += calc_error(lambd, [ii], train)` for `ii = 0, …, k-1`, in order. -/
def fold_err_sum (fi : List (List ℚ) → Except PyError (List (List ℚ)))
    (nf : List (List ℚ) → ℚ) (s : CVState) (lambd : ℚ) : ℕ → Except PyError ℚ
  | 0 => .ok 0
  | k + 1 =>
    match fold_err_sum fi nf s lambd k with
    | .error e => .error e
    | .ok acc =>
      match calc_error fi nf s.k_pot s.pots s.nt lambd [k] (loo_train s.n_obs k) with
      | .error e => .error e
      | .ok er => .ok (acc + er)

/-- One cell of the `errs` matrix: the leave-one-out error for the current
state's kernel matrix at a given lambda, summed over all electrode folds. -/
def cv_lambda_err (fi : List (List ℚ) → Except PyError (List (List ℚ)))
    (nf : List (List ℚ) → ℚ) (s : CVState) (lambd : ℚ) : Except PyError ℚ :=
  fold_err_sum fi nf s lambd s.n_obs

/-- One row of the `errs` matrix (the `for lambd_idx, lambd in
enumerate(lambdas)` loop, KCSD2D.py lines 340-349), lambdas in order; the
first failing lambda's exception propagates. -/
def rowErrs (fi : List (List ℚ) → Except PyError (List (List ℚ)))
    (nf : List (List ℚ) → ℚ) (s : CVState) : List ℚ → Except PyError (List ℚ)
  | [] => .ok []
  | l :: ls =>
    match cv_lambda_err fi nf s l with
    | .error e => .error e
    | .ok er =>
      match rowErrs fi nf s ls with
      | .error e => .error e
      | .ok rest => .ok (er :: rest)

/-- The `for R_idx, R in enumerate(Rs)` loop (KCSD2D.py lines 337-349):
per candidate R, `update_R` mutates the engine, then the lambda row is
computed; an exception leaves the engine in its mutated state (carried in the
error value). -/
def cv_scan (fi : List (List ℚ) → Except PyError (List (List ℚ)))
    (nf : List (List ℚ) → ℚ) (rb : Rebuild) (s : CVState) :
    List ℚ → List ℚ → Except (PyError × CVState) (List (List ℚ) × CVState)
  | [], _ => .ok ([], s)
  | R :: rest, ls =>
    let s1 := update_R rb s R
    match rowErrs fi nf s1 ls with
    | .error e => .error (e, s1)
    | .ok row =>
      match cv_scan fi nf rb s1 rest ls with
      | .error p => .error p
      | .ok (errs, sEnd) => .ok (row :: errs, sEnd)

/-- Minimum of a list of rationals (`np.min` over one axis already
flattened); junk value 0 on the empty list, which never occurs in use. -/
def listMin : List ℚ → ℚ
  | [] => 0
  | [x] => x
  | x :: y :: ys => min x (listMin (y :: ys))

/-- `np.min(errs)` over the whole 2-D error array. -/
def matrixMin (errs : List (List ℚ)) : ℚ := listMin errs.flatten

/-- Position of the first occurrence of `v` in a row, if any. -/
def findInRow : List ℚ → ℚ → Option ℕ
  | [], _ => none
  | x :: xs, v => if x = v then some 0 else (findInRow xs v).map (· + 1)

/-- `np.where(errs == v)` followed by taking the first listed position:
the row-major-first cell holding `v` (junk `(0,0)` when `v` is absent). -/
def findCell : List (List ℚ) → ℚ → ℕ × ℕ
  | [], _ => (0, 0)
  | r :: rs, v =>
    match findInRow r v with
    | some j => (0, j)
    | none => ((findCell rs v).1 + 1, (findCell rs v).2)

/-- `cross_validate` (KCSD2D.py lines 309-359) for explicitly passed
`Rs`/`lambdas`: scan the (R, lambda) grid accumulating leave-one-out errors,
pick `err_idx = np.where(errs == np.min(errs))`, take
`cv_R = Rs[err_idx[0]][0]`, `cv_lambda = lambdas[err_idx[1]][0]` (the
row-major-first minimising cell), then `update_R(cv_R)` and
`update_lambda(cv_lambda)` before returning `(cv_R, cv_lambda)`.  An
exception anywhere propagates, carrying the engine state it left behind. -/
def cross_validate (fi : List (List ℚ) → Except PyError (List (List ℚ)))
    (nf : List (List ℚ) → ℚ) (rb : Rebuild) (s : CVState) (Rs lambdas : List ℚ) :
    Except (PyError × CVState) ((ℚ × ℚ) × CVState) :=
  match cv_scan fi nf rb s Rs lambdas with
  | .error p => .error p
  | .ok (errs, s1) =>
    let p := findCell errs (matrixMin errs)
    let cv_R := Rs.getD p.1 0
    let cv_lambda := lambdas.getD p.2 0
    .ok ((cv_R, cv_lambda), update_lambda (update_R rb s1 cv_R) cv_lambda)

/-- The index pair `(err_idx[0][0], err_idx[1][0])` picked by
`cross_validate`: the row-major-first cell of `errs` holding `np.min(errs)`. -/
def cv_choice (errs : List (List ℚ)) : ℕ × ℕ := findCell errs (matrixMin errs)

/-- A list-matrix fast-inversion stand-in that always succeeds. -/
def fiOkL : List (List ℚ) → Except PyError (List (List ℚ)) := fun m => .ok m

/-- A list-matrix fast-inversion stand-in that always raises LinAlgError. -/
def fiFailL : List (List ℚ) → Except PyError (List (List ℚ)) := fun _ => .error .linAlgError

/-- A norm stand-in returning 0. -/
def nfW : List (List ℚ) → ℚ := fun _ => 0

/-- A concrete rebuild bundle. -/
def rbW : Rebuild := { tbl := fun _ => [1], kp := fun _ _ _ => 2, kc := fun _ _ _ => 3 }

/-- A concrete one-electrode engine state entering `cross_validate`. -/
def sW : CVState :=
  { n_obs := 1, R := 0, lambd := 5, dist_table := [], k_pot := fun _ _ => 0,
    k_cross := fun _ _ => 0, pots := fun _ _ => 0, nt := 1 }

/-- Concrete fixtures for exercising the theorems below. -/
def tblC3w : List ℚ := [2, 7]

/-- A fast-inversion stand-in that always succeeds (returns its argument). -/
def fiOkM : Matrix (Fin 1) (Fin 1) ℚ → Except PyError (Matrix (Fin 1) (Fin 1) ℚ) :=
  fun A => .ok A

/-- A fast-inversion stand-in that always raises LinAlgError. -/
def fiFailM : Matrix (Fin 1) (Fin 1) ℚ → Except PyError (Matrix (Fin 1) (Fin 1) ℚ) :=
  fun _ => .error .linAlgError

/-- A 1-electrode, 1-grid-point engine state as left by `method`. -/
def eW : EngineMats 1 1 := method_mats 1 1 0

/-- A single measured potential column. -/
def potsW : Matrix (Fin 1) (Fin 1) ℚ := 1

/-- Row index of a flat C-order grid position (inverse of the reshape). -/
def finDiv {nx ny : ℕ} (hy : 0 < ny) (g : Fin (nx * ny)) : Fin nx :=
  ⟨g.1 / ny, by
    have h := g.2
    exact (Nat.div_lt_iff_lt_mul hy).mpr h⟩

/-- Column index of a flat C-order grid position (inverse of the reshape). -/
def finMod {nx ny : ℕ} (hy : 0 < ny) (g : Fin (nx * ny)) : Fin ny :=
  ⟨g.1 % ny, Nat.mod_lt _ hy⟩

section Lemmas

/- ----------------------------------------------------------------- -/
/- Helper lemmas                                                      -/
/- ----------------------------------------------------------------- -/

lemma arangeQ_eq (start stop step : ℚ) (n : ℕ)
    (h : ⌈(stop - start) / step⌉ = (n : ℤ)) :
    arangeQ start stop step = (List.range n).map (fun i => start + (i : ℚ) * step) := by
  simp [arangeQ, h]

lemma floor_le_rnd (q : ℚ) : ⌊q⌋ ≤ rnd q := by
  unfold rnd
  split
  · exact le_refl _
  · split
    · omega
    · split <;> omega

lemma listMin_le {l : List ℚ} {x : ℚ} (h : x ∈ l) : listMin l ≤ x := by
  induction l with
  | nil => cases h
  | cons a t ih =>
    cases t with
    | nil =>
      rcases List.mem_cons.mp h with h1 | h1
      · subst h1; exact le_refl _
      · cases h1
    | cons b t2 =>
      rcases List.mem_cons.mp h with h1 | h1
      · subst h1; exact min_le_left _ _
      · exact le_trans (min_le_right _ _) (ih h1)

lemma listMin_mem {l : List ℚ} (h : l ≠ []) : listMin l ∈ l := by
  induction l with
  | nil => exact absurd rfl h
  | cons a t ih =>
    cases t with
    | nil => simp [listMin]
    | cons b t2 =>
      rcases le_total a (listMin (b :: t2)) with hle | hle
      · have he : listMin (a :: b :: t2) = a := min_eq_left hle
        rw [he]
        exact List.mem_cons_self _ _
      · have he : listMin (a :: b :: t2) = listMin (b :: t2) := min_eq_right hle
        rw [he]
        exact List.mem_cons_of_mem _ (ih (by simp))

lemma getD_mem {α : Type} (l : List α) (i : ℕ) (d : α) (h : i < l.length) :
    l.getD i d ∈ l := by
  induction l generalizing i with
  | nil => simp at h
  | cons a t ih =>
    cases i with
    | zero => simp
    | succ k =>
      simp only [List.getD_cons_succ]
      exact List.mem_cons_of_mem _ (ih k (by simpa using h))

lemma cell_mem_flatten {L : List (List ℚ)} {i j : ℕ} (hi : i < L.length)
    (hj : j < (L.getD i []).length) : (L.getD i []).getD j 0 ∈ L.flatten :=
  List.mem_flatten.mpr ⟨L.getD i [], getD_mem L i [] hi, getD_mem _ j 0 hj⟩

lemma findInRow_some : ∀ {r : List ℚ} {v : ℚ} {j : ℕ}, findInRow r v = some j →
    j < r.length ∧ r.getD j 0 = v ∧ ∀ k, k < j → r.getD k 0 ≠ v := by
  intro r
  induction r with
  | nil => intro v j h; simp [findInRow] at h
  | cons a t ih =>
    intro v j h
    simp only [findInRow] at h
    by_cases hav : a = v
    · rw [if_pos hav] at h
      have hj : j = 0 := by
        cases h
        rfl
      subst hj
      exact ⟨Nat.succ_pos _, hav, fun k hk => absurd hk (Nat.not_lt_zero _)⟩
    · rw [if_neg hav] at h
      cases hfind : findInRow t v with
      | none => rw [hfind] at h; cases h
      | some j2 =>
        rw [hfind] at h
        have hj : j = j2 + 1 := by
          cases h
          rfl
        subst hj
        obtain ⟨h1, h2, h3⟩ := ih hfind
        refine ⟨Nat.succ_lt_succ h1, h2, fun k hk => ?_⟩
        cases k with
        | zero => simpa using hav
        | succ k2 =>
          simp only [List.getD_cons_succ]
          exact h3 k2 (Nat.lt_of_succ_lt_succ hk)

lemma findInRow_isSome {r : List ℚ} {v : ℚ} (h : v ∈ r) :
    (findInRow r v).isSome := by
  induction r with
  | nil => cases h
  | cons a t ih =>
    simp only [findInRow]
    by_cases hav : a = v
    · simp [hav]
    · rcases List.mem_cons.mp h with h1 | h1
      · exact absurd h1.symm hav
      · rw [if_neg hav]
        have hs := ih h1
        cases hfind : findInRow t v with
        | none => rw [hfind] at hs; cases hs
        | some j2 => simp

lemma findCell_spec : ∀ {L : List (List ℚ)} {v : ℚ}, v ∈ L.flatten →
    (findCell L v).1 < L.length ∧
    (findCell L v).2 < (L.getD (findCell L v).1 []).length ∧
    (L.getD (findCell L v).1 []).getD (findCell L v).2 0 = v ∧
    (∀ i, i < (findCell L v).1 → ∀ j, j < (L.getD i []).length →
        (L.getD i []).getD j 0 ≠ v) ∧
    (∀ j, j < (findCell L v).2 →
        (L.getD (findCell L v).1 []).getD j 0 ≠ v) := by
  intro L
  induction L with
  | nil => intro v h; simp at h
  | cons r rs ih =>
    intro v h
    cases hfind : findInRow r v with
    | some j =>
      obtain ⟨h1, h2, h3⟩ := findInRow_some hfind
      have hc : findCell (r :: rs) v = (0, j) := by
        simp only [findCell, hfind]
      rw [hc]
      exact ⟨Nat.succ_pos _, h1, h2,
        fun i hi => absurd hi (Nat.not_lt_zero _), h3⟩
    | none =>
      have hvr : v ∉ r := by
        intro hmem
        have := findInRow_isSome hmem
        rw [hfind] at this
        cases this
      have hvfl : v ∈ rs.flatten := by
        rw [List.flatten_cons] at h
        rcases List.mem_append.mp h with h1 | h1
        · exact absurd h1 hvr
        · exact h1
      obtain ⟨g1, g2, g3, g4, g5⟩ := ih hvfl
      have hc : findCell (r :: rs) v = ((findCell rs v).1 + 1, (findCell rs v).2) := by
        simp only [findCell, hfind]
      refine ⟨?_, ?_, ?_, ?_, ?_⟩ <;> rw [hc]
      · simpa using Nat.succ_lt_succ g1
      · simpa using g2
      · simpa using g3
      · intro i hi j hj
        cases i with
        | zero =>
          simp only [List.getD_cons_zero] at hj ⊢
          exact fun hEq => hvr (hEq ▸ getD_mem r j 0 hj)
        | succ i2 =>
          simp only [List.getD_cons_succ] at hj ⊢
          exact g4 i2 (by simpa using hi) j hj
      · simpa using g5

/- ----------------------------------------------------------------- -/
/- C3                                                                 -/
/- ----------------------------------------------------------------- -/

/-- C3 (counterexample): the claim that `lookup(d)` returns the table's last
entry for every `d ≥ dist_max` is false.  With a 100-entry table whose last
entry is 5, `dist_max = 1` and `d = 655.36 ≥ dist_max`, the rounded index is
65536, whose `np.uint16` cast wraps to 0, so the lookup returns the *first*
entry 0 instead of the last entry 5. -/
theorem C3_counterexample :
    (1 : ℚ) ≤ 16384 / 25 ∧
    tblC3.getD (tblC3.length - 1) 0 = 5 ∧
    generated_potential tblC3 1 (16384 / 25) = 0 ∧
    (0 : ℚ) ≠ 5 := by
  have hlen : tblC3.length = 100 := by simp [tblC3]
  refine ⟨by norm_num, ?_, ?_, by norm_num⟩
  · rw [hlen]
    decide
  · have hr : rnd (((100 : ℕ) : ℚ) * (16384 / 25) / 1) = 65536 := by
      norm_num [rnd]
    simp only [generated_potential, hlen, hr]
    decide

/-- C3 (amended): the lookup maps a distance to index
`round(density·d/dist_max)`, reduced mod 2^16 by the `np.uint16` cast, then
clamped above by `density - 1`; `lookup(0)` is the zero-distance entry, the
used index never leaves the table, and `lookup(d)` for `d ≥ dist_max` is the
last entry *provided* the rounded index fits in 16 bits. -/
theorem C3_lookup_nearest_index (tbl : List ℚ) (dist_max d : ℚ)
    (hlen : 0 < tbl.length) (hdm : 0 < dist_max) :
    generated_potential tbl dist_max 0 = tbl.getD 0 0 ∧
    min ((rnd ((tbl.length : ℚ) * d / dist_max)).toNat % 65536) (tbl.length - 1)
      < tbl.length ∧
    (dist_max ≤ d → rnd ((tbl.length : ℚ) * d / dist_max) < 65536 →
      generated_potential tbl dist_max d = tbl.getD (tbl.length - 1) 0) := by
  refine ⟨?_, ?_, ?_⟩
  · have hr0 : rnd 0 = 0 := by norm_num [rnd]
    simp [generated_potential, hr0]
  · have : min ((rnd ((tbl.length : ℚ) * d / dist_max)).toNat % 65536)
        (tbl.length - 1) ≤ tbl.length - 1 := Nat.min_le_right _ _
    omega
  · intro hdd hlt
    have hq : (tbl.length : ℚ) ≤ (tbl.length : ℚ) * d / dist_max := by
      rw [mul_div_assoc]
      have h1 : (1 : ℚ) ≤ d / dist_max := (one_le_div hdm).mpr hdd
      nlinarith [Nat.cast_nonneg (α := ℚ) tbl.length]
    have hfl : (tbl.length : ℤ) ≤ ⌊(tbl.length : ℚ) * d / dist_max⌋ := by
      rw [Int.le_floor]; exact_mod_cast hq
    have hrnd : (tbl.length : ℤ) ≤ rnd ((tbl.length : ℚ) * d / dist_max) :=
      le_trans hfl (floor_le_rnd _)
    have htn : tbl.length ≤ (rnd ((tbl.length : ℚ) * d / dist_max)).toNat := by
      omega
    have htn2 : (rnd ((tbl.length : ℚ) * d / dist_max)).toNat < 65536 := by
      omega
    have hmod : (rnd ((tbl.length : ℚ) * d / dist_max)).toNat % 65536
        = (rnd ((tbl.length : ℚ) * d / dist_max)).toNat := Nat.mod_eq_of_lt htn2
    have hmin : min ((rnd ((tbl.length : ℚ) * d / dist_max)).toNat % 65536)
        (tbl.length - 1) = tbl.length - 1 := by
      rw [hmod]; omega
    simp only [generated_potential, hmin]

/-- Witness for `C3_lookup_nearest_index` at `tbl = [2, 7]`, `dist_max = 1`,
`d = 3`: all hypotheses hold and the clamped lookup returns the last entry. -/
theorem C3_witness :
    0 < tblC3w.length ∧ (0 : ℚ) < 1 ∧ (1 : ℚ) ≤ 3 ∧
    rnd ((tblC3w.length : ℚ) * 3 / 1) < 65536 ∧
    generated_potential tblC3w 1 3 = tblC3w.getD (tblC3w.length - 1) 0 := by
  have hlt : rnd ((tblC3w.length : ℚ) * 3 / 1) < 65536 := by
    have hr : rnd ((tblC3w.length : ℚ) * 3 / 1) = 6 := by
      norm_num [rnd, tblC3w]
    omega
  exact ⟨by decide, by norm_num, by norm_num, hlt,
    (C3_lookup_nearest_index tblC3w 1 3 (by decide) (by norm_num)).2.2
      (by norm_num) hlt⟩

/- ----------------------------------------------------------------- -/
/- C4                                                                 -/
/- ----------------------------------------------------------------- -/

/-- C4: at `R = 1`, `dist_max = 10`, `density = 100` (so `border1 = 9`,
`border2 = 13`), the sampled index set is
`{0, 3, 6, 9, 10, 13, 14, 18, 27, …, 99, 101}`: between the borders the
source steps by `dense_step = 3` (only index 10 is sampled), not by
`denser_step = 1` as the spec states, so the intermediate indices 11 and 12
are never probed. -/
theorem C4_sparse_table_at_failing_input :
    sparse_dist_table 1 10 100 =
      [0, 3, 6, 9, 10, 13, 14, 18, 27, 36, 45, 54, 63, 72, 81, 90, 99, 101] ∧
    (9 : ℚ) < 11 ∧ (11 : ℚ) < 12 ∧ (12 : ℚ) < 13 ∧
    (11 : ℚ) ∉ sparse_dist_table 1 10 100 ∧
    (12 : ℚ) ∉ sparse_dist_table 1 10 100 := by
  have heval : sparse_dist_table 1 10 100 =
      [0, 3, 6, 9, 10, 13, 14, 18, 27, 36, 45, 54, 63, 72, 81, 90, 99, 101] := by
    simp only [sparse_dist_table]
    rw [arangeQ_eq _ _ _ 3 (by norm_num), arangeQ_eq _ _ _ 1 (by norm_num),
        arangeQ_eq _ _ _ 10 (by norm_num [Int.ceil_eq_iff])]
    have h3 : List.range 3 = [0, 1, 2] := by decide
    have h1 : List.range 1 = [0] := by decide
    have h10 : List.range 10 = [0, 1, 2, 3, 4, 5, 6, 7, 8, 9] := by decide
    rw [h3, h1, h10]
    simp only [List.map, List.cons_append, List.nil_append, np_unique]
    norm_num [sortQ, insertSorted, dedupAdj]
  refine ⟨heval, by norm_num, by norm_num, by norm_num, ?_, ?_⟩ <;>
    · rw [heval]
      norm_num

/- ----------------------------------------------------------------- -/
/- C5                                                                 -/
/- ----------------------------------------------------------------- -/

/-- C5: `k_pot` is assembled as `B_potᵀ · B_pot` where `B_pot` maps each
pairwise source-to-electrode distance through the lookup table; consequently
`k_pot` is exactly symmetric. -/
theorem C5_k_pot_gram_symmetric {ns ne : ℕ} (tbl : List ℚ) (dist_max : ℚ)
    (dists : Matrix (Fin ns) (Fin ne) ℚ) :
    k_pot tbl dist_max dists =
      (b_pot tbl dist_max dists).transpose * b_pot tbl dist_max dists ∧
    (∀ s e, b_pot tbl dist_max dists s e
        = generated_potential tbl dist_max (dists s e)) ∧
    (k_pot tbl dist_max dists).transpose = k_pot tbl dist_max dists ∧
    ∀ i j, k_pot tbl dist_max dists i j = k_pot tbl dist_max dists j i := by
  have hsym : (k_pot tbl dist_max dists).transpose = k_pot tbl dist_max dists := by
    unfold k_pot
    rw [Matrix.transpose_mul, Matrix.transpose_transpose]
  refine ⟨rfl, fun s e => rfl, hsym, fun i j => ?_⟩
  conv_lhs => rw [← hsym]
  rfl

/- ----------------------------------------------------------------- -/
/- C6                                                                 -/
/- ----------------------------------------------------------------- -/

/-- C6: on any engine state produced by `method` — which never assigns
`k_interp_pot`, since the `update_b_interp_pot()` call is commented out —
`values('POT')` raises AttributeError instead of returning an estimate,
whatever the kernel matrices, lambda, potentials and inversion routines
are. -/
theorem C6_values_pot_attribute_error {ng n nt : ℕ}
    (fastInv npInv : Matrix (Fin n) (Fin n) ℚ → Except PyError (Matrix (Fin n) (Fin n) ℚ))
    (kp : Matrix (Fin n) (Fin n) ℚ) (kc : Matrix (Fin ng) (Fin n) ℚ) (lambd : ℚ)
    (pots : Matrix (Fin n) (Fin nt) ℚ) :
    values fastInv npInv (method_mats kp kc lambd) pots "POT"
      = .error .attributeError := rfl

/- ----------------------------------------------------------------- -/
/- C7                                                                 -/
/- ----------------------------------------------------------------- -/

/-- C7: when `faster_inverse` raises LinAlgError on the regularized kernel
matrix and the regular `np.linalg.inv` succeeds, `values` recovers locally —
the solve proceeds with the fallback inverse and no error reaches the
caller. -/
theorem C7_singular_fallback_recovers {ng n nt : ℕ}
    (fastInv npInv : Matrix (Fin n) (Fin n) ℚ → Except PyError (Matrix (Fin n) (Fin n) ℚ))
    (e : EngineMats ng n) (pots : Matrix (Fin n) (Fin nt) ℚ)
    (kInv : Matrix (Fin n) (Fin n) ℚ)
    (hf : fastInv (e.k_pot + e.lambd • 1) = .error .linAlgError)
    (hn : npInv (e.k_pot + e.lambd • 1) = .ok kInv) :
    solve_k_inv fastInv npInv (e.k_pot + e.lambd • 1) = .ok kInv ∧
    values fastInv npInv e pots "CSD"
      = .ok (estimationLoop kInv pots e.k_interp_cross) := by
  have hs : solve_k_inv fastInv npInv (e.k_pot + e.lambd • 1) = .ok kInv := by
    unfold solve_k_inv
    rw [hf, hn]
  exact ⟨hs, by simp [values, hs]⟩

/-- Witness for `C7_singular_fallback_recovers`: a concrete engine whose fast
inversion always fails with LinAlgError and whose regular inversion
succeeds. -/
theorem C7_witness :
    fiFailM (eW.k_pot + eW.lambd • 1) = .error .linAlgError ∧
    fiOkM (eW.k_pot + eW.lambd • 1) = .ok (eW.k_pot + eW.lambd • 1) ∧
    values fiFailM fiOkM eW potsW "CSD"
      = .ok (estimationLoop (eW.k_pot + eW.lambd • 1) potsW eW.k_interp_cross) :=
  ⟨rfl, rfl,
    (C7_singular_fallback_recovers fiFailM fiOkM eW potsW
      (eW.k_pot + eW.lambd • 1) rfl rfl).2⟩

/- ----------------------------------------------------------------- -/
/- C8                                                                 -/
/- ----------------------------------------------------------------- -/

/-- C8 (counterexample): `values` called with mode `"FOO"` does not fail with
InvalidEstimationMode — the source only prints a message, runs the inversion
anyway, and then dies with UnboundLocalError on the never-assigned
`estimation_table`. -/
theorem C8_counterexample :
    values fiOkM fiOkM eW potsW "FOO" = .error .unboundLocal ∧
    PyError.unboundLocal ≠ PyError.invalidEstimationMode := ⟨rfl, by decide⟩

/-- C8 (amended): for a mode that is neither CSD nor POT, with at least one
electrode, at least one time column and a successful inversion, `values`
returns no estimate but fails with UnboundLocalError (after the message is
printed and the inversion has already been carried out), not with a typed
InvalidEstimationMode. -/
theorem C8_invalid_mode_unbound_local {ng n nt : ℕ}
    (fastInv npInv : Matrix (Fin n) (Fin n) ℚ → Except PyError (Matrix (Fin n) (Fin n) ℚ))
    (e : EngineMats ng n) (pots : Matrix (Fin n) (Fin nt) ℚ)
    (kInv : Matrix (Fin n) (Fin n) ℚ) (mode : String)
    (h1 : mode ≠ "CSD") (h2 : mode ≠ "POT") (h3 : nt ≠ 0) (h4 : n ≠ 0)
    (hf : fastInv (e.k_pot + e.lambd • 1) = .ok kInv) :
    values fastInv npInv e pots mode = .error .unboundLocal := by
  have hs : solve_k_inv fastInv npInv (e.k_pot + e.lambd • 1) = .ok kInv := by
    unfold solve_k_inv
    rw [hf]
  simp [values, hs, h1, h2, h3, h4]

/-- Witness for `C8_invalid_mode_unbound_local` at mode `"BAR"` on the
concrete one-electrode engine. -/
theorem C8_witness :
    ("BAR" : String) ≠ "CSD" ∧ ("BAR" : String) ≠ "POT" ∧ (1 : ℕ) ≠ 0 ∧
    values fiOkM fiOkM eW potsW "BAR" = .error .unboundLocal :=
  ⟨by decide, by decide, by decide,
    C8_invalid_mode_unbound_local fiOkM fiOkM eW potsW (eW.k_pot + eW.lambd • 1)
      "BAR" (by decide) (by decide) (by decide) (by decide) rfl⟩

/- ----------------------------------------------------------------- -/
/- C9                                                                 -/
/- ----------------------------------------------------------------- -/

/-- C9: requesting a basis type outside the supported enumeration makes
`place_basis` fail with InvalidBasisType before any source grid is built —
the result carries no grids. -/
theorem C9_invalid_basis_type {α : Type} (srcType : String) (mkGrids : Unit → α)
    (h : srcType ∉ basis_types) :
    place_basis srcType mkGrids = .error .invalidBasisType ∧
    ∀ g, place_basis srcType mkGrids ≠ .ok g := by
  constructor
  · simp [place_basis, h]
  · intro g
    simp [place_basis, h]

/-- Witness for `C9_invalid_basis_type` at basis type `"unknown"`. -/
theorem C9_witness :
    ("unknown" : String) ∉ basis_types ∧
    place_basis "unknown" (fun _ => ()) = .error .invalidBasisType :=
  ⟨by decide, (C9_invalid_basis_type "unknown" (fun _ => ()) (by decide)).1⟩

/- ----------------------------------------------------------------- -/
/- C2                                                                 -/
/- ----------------------------------------------------------------- -/

/-- C2: the estimation loop of `values('CSD')` computes, per time column,
`beta = K_inv · potentials[:, t]` followed by
`estimate[:, t] = CrossKernelMatrix · beta` — i.e. the whole output equals
the matrix product `CrossKernelMatrix · K_inv · potentials` — the C-order
reshape recovers the flat grid dimension as `(grid_x, grid_y)`, and in the
7-electrode end-to-end scenario (bounds `[-2,2]×[-2,2]`, spacing 0.05, one
time column) the returned array has shape `(81, 81, 1)`. -/
theorem C2_solver_formula_and_shape :
    (∀ (n nt ng : ℕ) (kInv : Matrix (Fin n) (Fin n) ℚ)
        (pots : Matrix (Fin n) (Fin nt) ℚ) (tbl : Matrix (Fin ng) (Fin n) ℚ),
        estimationLoop kInv pots tbl = tbl * kInv * pots) ∧
    (∀ (n nt ng : ℕ)
        (fastInv npInv : Matrix (Fin n) (Fin n) ℚ → Except PyError (Matrix (Fin n) (Fin n) ℚ))
        (e : EngineMats ng n) (pots : Matrix (Fin n) (Fin nt) ℚ)
        (kInv : Matrix (Fin n) (Fin n) ℚ),
        fastInv (e.k_pot + e.lambd • 1) = .ok kInv →
        values fastInv npInv e pots "CSD" = .ok (e.k_interp_cross * kInv * pots)) ∧
    (∀ (nx ny nt : ℕ) (hy : 0 < ny) (m : Matrix (Fin (nx * ny)) (Fin nt) ℚ)
        (g : Fin (nx * ny)) (t : Fin nt),
        reshapeGrid m (finDiv hy g) (finMod hy g) t = m g t) ∧
    scenario_values_shape = (81, 81, 1) := by
  have hloop : ∀ (n nt ng : ℕ) (kInv : Matrix (Fin n) (Fin n) ℚ)
      (pots : Matrix (Fin n) (Fin nt) ℚ) (tbl : Matrix (Fin ng) (Fin n) ℚ),
      estimationLoop kInv pots tbl = tbl * kInv * pots := by
    intro n nt ng kInv pots tbl
    ext g t
    simp only [estimationLoop, Matrix.of_apply, Matrix.mul_apply, Matrix.mulVec,
      Matrix.dotProduct, Finset.sum_mul]
    rw [Finset.sum_comm]
    refine Finset.sum_congr rfl fun i _ => Finset.sum_congr rfl fun j _ => ?_
    ring
  refine ⟨hloop, ?_, ?_, ?_⟩
  · intro n nt ng fastInv npInv e pots kInv hf
    have hs : solve_k_inv fastInv npInv (e.k_pot + e.lambd • 1) = .ok kInv := by
      unfold solve_k_inv
      rw [hf]
    simp [values, hs, hloop]
  · intro nx ny nt hy m g t
    have hval : (g.1 / ny) * ny + g.1 % ny = g.1 := by
      rw [Nat.mul_comm]
      exact Nat.div_add_mod g.1 ny
    simp only [reshapeGrid, finDiv, finMod]
    congr 1
    exact Fin.ext hval
  · have h1 : nLin (-2) 2 (1/20) = 81 := by
      have hfl : ⌊((2 : ℚ) - -2) / (1/20) + 1⌋ = (81 : ℤ) := by norm_num
      unfold nLin
      rw [hfl]
      rfl
    simp only [scenario_values_shape, values_shape, spaceShape, h1]

/-- Witness for `C2_solver_formula_and_shape` on the one-electrode fixture
engine (the only hypotheses are the inversion success in the second conjunct
and `0 < ny` in the third). -/
theorem C2_witness :
    fiOkM (eW.k_pot + eW.lambd • 1) = .ok (eW.k_pot + eW.lambd • 1) ∧
    values fiOkM fiOkM eW potsW "CSD"
      = .ok (eW.k_interp_cross * (eW.k_pot + eW.lambd • 1) * potsW) ∧
    0 < 1 ∧
    @reshapeGrid 1 1 1 (1 : Matrix (Fin (1 * 1)) (Fin 1) ℚ)
      (finDiv Nat.one_pos (⟨0, Nat.one_pos⟩ : Fin (1 * 1)))
      (finMod Nat.one_pos (⟨0, Nat.one_pos⟩ : Fin (1 * 1))) ⟨0, Nat.one_pos⟩
      = (1 : Matrix (Fin (1 * 1)) (Fin 1) ℚ)
          (⟨0, Nat.one_pos⟩ : Fin (1 * 1)) ⟨0, Nat.one_pos⟩ :=
  ⟨rfl,
    C2_solver_formula_and_shape.2.1 1 1 1 fiOkM fiOkM eW potsW
      (eW.k_pot + eW.lambd • 1) rfl,
    Nat.one_pos,
    C2_solver_formula_and_shape.2.2.1 1 1 1 Nat.one_pos 1 ⟨0, Nat.one_pos⟩
      ⟨0, Nat.one_pos⟩⟩

/- ----------------------------------------------------------------- -/
/- Cross-validation loop lemmas                                       -/
/- ----------------------------------------------------------------- -/

lemma update_R_update_R (rb : Rebuild) (s : CVState) (R R2 : ℚ) :
    update_R rb (update_R rb s R) R2 = update_R rb s R2 := rfl

lemma rowErrs_ok {fi : List (List ℚ) → Except PyError (List (List ℚ))}
    {nf : List (List ℚ) → ℚ} {s : CVState} :
    ∀ {ls row : List ℚ}, rowErrs fi nf s ls = .ok row →
      row.length = ls.length ∧
      ∀ j, j < ls.length → cv_lambda_err fi nf s (ls.getD j 0) = .ok (row.getD j 0) := by
  intro ls
  induction ls with
  | nil =>
    intro row h
    simp only [rowErrs, Except.ok.injEq] at h
    subst h
    exact ⟨rfl, fun j hj => absurd hj (Nat.not_lt_zero _)⟩
  | cons l ls2 ih =>
    intro row h
    simp only [rowErrs] at h
    cases hc : cv_lambda_err fi nf s l with
    | error e => rw [hc] at h; cases h
    | ok er =>
      rw [hc] at h
      cases hr : rowErrs fi nf s ls2 with
      | error e => rw [hr] at h; cases h
      | ok rest =>
        rw [hr] at h
        simp only [Except.ok.injEq] at h
        subst h
        obtain ⟨ih1, ih2⟩ := ih hr
        refine ⟨by simp [ih1], fun j hj => ?_⟩
        cases j with
        | zero => simpa using hc
        | succ j2 =>
          simp only [List.getD_cons_succ]
          exact ih2 j2 (Nat.lt_of_succ_lt_succ hj)

lemma cv_scan_ok {fi : List (List ℚ) → Except PyError (List (List ℚ))}
    {nf : List (List ℚ) → ℚ} {rb : Rebuild} :
    ∀ {Rs : List ℚ} {s : CVState} {ls : List ℚ} {errs : List (List ℚ)} {s1 : CVState},
      cv_scan fi nf rb s Rs ls = .ok (errs, s1) →
      errs.length = Rs.length ∧
      (∀ i, i < Rs.length → (errs.getD i []).length = ls.length) ∧
      (∀ i, i < Rs.length → ∀ j, j < ls.length →
          cv_lambda_err fi nf (update_R rb s (Rs.getD i 0)) (ls.getD j 0)
            = .ok ((errs.getD i []).getD j 0)) := by
  intro Rs
  induction Rs with
  | nil =>
    intro s ls errs s1 h
    simp only [cv_scan, Except.ok.injEq, Prod.mk.injEq] at h
    obtain ⟨h1, _⟩ := h
    subst h1
    exact ⟨rfl, fun i hi => absurd hi (Nat.not_lt_zero _),
      fun i hi => absurd hi (Nat.not_lt_zero _)⟩
  | cons R rest ih =>
    intro s ls errs s1 h
    simp only [cv_scan] at h
    cases hrow : rowErrs fi nf (update_R rb s R) ls with
    | error e => rw [hrow] at h; cases h
    | ok row =>
      rw [hrow] at h
      cases hscan : cv_scan fi nf rb (update_R rb s R) rest ls with
      | error p => rw [hscan] at h; cases h
      | ok pr =>
        obtain ⟨errs2, s2⟩ := pr
        rw [hscan] at h
        simp only [Except.ok.injEq, Prod.mk.injEq] at h
        obtain ⟨he, _⟩ := h
        subst he
        obtain ⟨ihl, ihrow, ihcell⟩ := ih hscan
        obtain ⟨hl, hcell⟩ := rowErrs_ok hrow
        refine ⟨by simp [ihl], ?_, ?_⟩
        · intro i hi
          cases i with
          | zero => simpa using hl
          | succ i2 =>
            simp only [List.getD_cons_succ]
            exact ihrow i2 (Nat.lt_of_succ_lt_succ hi)
        · intro i hi j hj
          cases i with
          | zero =>
            simp only [List.getD_cons_zero]
            exact hcell j hj
          | succ i2 =>
            simp only [List.getD_cons_succ]
            have hi2 := ihcell i2 (Nat.lt_of_succ_lt_succ hi) j hj
            rwa [update_R_update_R] at hi2

lemma cv_scan_err {fi : List (List ℚ) → Except PyError (List (List ℚ))}
    {nf : List (List ℚ) → ℚ} {rb : Rebuild} :
    ∀ {Rs : List ℚ} {s : CVState} {ls : List ℚ} {e : PyError} {s2 : CVState},
      cv_scan fi nf rb s Rs ls = .error (e, s2) →
      s2.lambd = s.lambd ∧ s2.pots = s.pots ∧ s2.n_obs = s.n_obs ∧ s2.nt = s.nt ∧
      s2.dist_table = rb.tbl s2.R ∧ s2.k_pot = rb.kp s2.R ∧
      s2.k_cross = rb.kc s2.R ∧ s2.R ∈ Rs := by
  intro Rs
  induction Rs with
  | nil =>
    intro s ls e s2 h
    simp only [cv_scan] at h
    cases h
  | cons R rest ih =>
    intro s ls e s2 h
    simp only [cv_scan] at h
    cases hrow : rowErrs fi nf (update_R rb s R) ls with
    | error e2 =>
      rw [hrow] at h
      simp only [Except.error.injEq, Prod.mk.injEq] at h
      obtain ⟨_, hs⟩ := h
      subst hs
      exact ⟨rfl, rfl, rfl, rfl, rfl, rfl, rfl, List.mem_cons_self _ _⟩
    | ok row =>
      rw [hrow] at h
      cases hscan : cv_scan fi nf rb (update_R rb s R) rest ls with
      | error p =>
        obtain ⟨e2, s3⟩ := p
        rw [hscan] at h
        simp only [Except.error.injEq, Prod.mk.injEq] at h
        obtain ⟨_, hs⟩ := h
        subst hs
        obtain ⟨g1, g2, g3, g4, g5, g6, g7, g8⟩ := ih hscan
        exact ⟨g1, g2, g3, g4, g5, g6, g7, List.mem_cons_of_mem _ g8⟩
      | ok pr =>
        obtain ⟨errs2, s3⟩ := pr
        rw [hscan] at h
        cases h

lemma fold_err_sum_succ_of_error {fi : List (List ℚ) → Except PyError (List (List ℚ))}
    {nf : List (List ℚ) → ℚ} {s : CVState} {lambd : ℚ} {e : PyError} {k : ℕ}
    (h : fold_err_sum fi nf s lambd k = .error e) :
    fold_err_sum fi nf s lambd (k + 1) = .error e := by
  unfold fold_err_sum
  rw [h]

lemma fold_err_sum_fail {fi : List (List ℚ) → Except PyError (List (List ℚ))}
    {nf : List (List ℚ) → ℚ} {s : CVState} {lambd : ℚ} {e : PyError}
    (h : calc_error fi nf s.k_pot s.pots s.nt lambd [0] (loo_train s.n_obs 0)
      = .error e) :
    ∀ k, 0 < k → fold_err_sum fi nf s lambd k = .error e := by
  intro k
  induction k with
  | zero => intro h0; exact absurd h0 (Nat.lt_irrefl 0)
  | succ k2 ih =>
    intro _
    cases k2 with
    | zero =>
      simp only [fold_err_sum]
      rw [h]
    | succ k3 =>
      exact fold_err_sum_succ_of_error (ih (Nat.succ_pos _))

/- ----------------------------------------------------------------- -/
/- C1                                                                 -/
/- ----------------------------------------------------------------- -/

/-- C1: for non-empty `Rs` and `lambdas`, a successful scan accumulates in
each cell of `errs` the leave-one-out error of its `(R, lambda)` pair summed
over all electrode folds (with the engine rebuilt for that `R`);
`cross_validate` returns the pair at `cv_choice errs` — a cell holding the
global minimum such that every row-major-earlier cell is strictly larger —
and the returned engine state carries the winning `R` and `lambda`. -/
theorem C1_cross_validate_row_major_argmin
    (fi : List (List ℚ) → Except PyError (List (List ℚ))) (nf : List (List ℚ) → ℚ)
    (rb : Rebuild) (s : CVState) (Rs ls : List ℚ) (errs : List (List ℚ)) (s1 : CVState)
    (hR : Rs ≠ []) (hl : ls ≠ [])
    (hscan : cv_scan fi nf rb s Rs ls = .ok (errs, s1)) :
    (∀ i, i < Rs.length → ∀ j, j < ls.length →
        cv_lambda_err fi nf (update_R rb s (Rs.getD i 0)) (ls.getD j 0)
          = .ok ((errs.getD i []).getD j 0)) ∧
    (cv_choice errs).1 < Rs.length ∧
    (cv_choice errs).2 < ls.length ∧
    (errs.getD (cv_choice errs).1 []).getD (cv_choice errs).2 0 = matrixMin errs ∧
    (∀ i, i < Rs.length → ∀ j, j < ls.length →
        matrixMin errs ≤ (errs.getD i []).getD j 0) ∧
    (∀ i j, i < Rs.length → j < ls.length →
        (i < (cv_choice errs).1 ∨ (i = (cv_choice errs).1 ∧ j < (cv_choice errs).2)) →
        matrixMin errs < (errs.getD i []).getD j 0) ∧
    cross_validate fi nf rb s Rs ls =
      .ok ((Rs.getD (cv_choice errs).1 0, ls.getD (cv_choice errs).2 0),
        update_lambda (update_R rb s1 (Rs.getD (cv_choice errs).1 0))
          (ls.getD (cv_choice errs).2 0)) ∧
    (update_lambda (update_R rb s1 (Rs.getD (cv_choice errs).1 0))
        (ls.getD (cv_choice errs).2 0)).R = Rs.getD (cv_choice errs).1 0 ∧
    (update_lambda (update_R rb s1 (Rs.getD (cv_choice errs).1 0))
        (ls.getD (cv_choice errs).2 0)).lambd = ls.getD (cv_choice errs).2 0 := by
  obtain ⟨hlen, hrowlen, hcells⟩ := cv_scan_ok hscan
  have hR0 : 0 < Rs.length := List.length_pos.mpr hR
  have hl0 : 0 < ls.length := List.length_pos.mpr hl
  have h00 : (errs.getD 0 []).getD 0 0 ∈ errs.flatten :=
    cell_mem_flatten (by omega) (by rw [hrowlen 0 (by omega)]; exact hl0)
  have hne : errs.flatten ≠ [] := List.ne_nil_of_mem h00
  have hminmem : matrixMin errs ∈ errs.flatten := listMin_mem hne
  obtain ⟨g1, g2, g3, g4, g5⟩ := findCell_spec hminmem
  have hp1 : (cv_choice errs).1 < Rs.length := by
    rw [← hlen]; exact g1
  have hp2 : (cv_choice errs).2 < ls.length := by
    rw [← hrowlen _ hp1]; exact g2
  have hle : ∀ i, i < Rs.length → ∀ j, j < ls.length →
      matrixMin errs ≤ (errs.getD i []).getD j 0 := by
    intro i hi j hj
    exact listMin_le (cell_mem_flatten (by omega) (by rw [hrowlen i hi]; exact hj))
  refine ⟨hcells, hp1, hp2, g3, hle, ?_, ?_, rfl, rfl⟩
  · intro i j hi hj hlex
    rcases hlex with hlt | ⟨heq, hjlt⟩
    · exact lt_of_le_of_ne (hle i hi j hj)
        (fun hEq => g4 i hlt j (by rw [hrowlen i hi]; exact hj) hEq.symm)
    · subst heq
      exact lt_of_le_of_ne (hle _ hi j hj) (fun hEq => g5 j hjlt hEq.symm)
  · unfold cross_validate
    rw [hscan]
    rfl

/-- Witness for `C1_cross_validate_row_major_argmin`: a concrete
one-electrode state, `Rs = [4]`, `lambdas = [3]`; the scan yields the single
error cell `0 + 0` and `cross_validate` returns `(4, 3)` and installs them in
the engine state. -/
theorem C1_witness :
    ([(4 : ℚ)] ≠ []) ∧ ([(3 : ℚ)] ≠ []) ∧
    cv_scan fiOkL nfW rbW sW [4] [3] = .ok ([[0 + 0]], update_R rbW sW 4) ∧
    (cross_validate fiOkL nfW rbW sW [4] [3] =
      .ok (([(4 : ℚ)].getD (cv_choice [[0 + 0]]).1 0,
            [(3 : ℚ)].getD (cv_choice [[0 + 0]]).2 0),
        update_lambda (update_R rbW (update_R rbW sW 4)
            ([(4 : ℚ)].getD (cv_choice [[0 + 0]]).1 0))
          ([(3 : ℚ)].getD (cv_choice [[0 + 0]]).2 0)) ∧
     (update_lambda (update_R rbW (update_R rbW sW 4)
          ([(4 : ℚ)].getD (cv_choice [[0 + 0]]).1 0))
        ([(3 : ℚ)].getD (cv_choice [[0 + 0]]).2 0)).R
       = [(4 : ℚ)].getD (cv_choice [[0 + 0]]).1 0 ∧
     (update_lambda (update_R rbW (update_R rbW sW 4)
          ([(4 : ℚ)].getD (cv_choice [[0 + 0]]).1 0))
        ([(3 : ℚ)].getD (cv_choice [[0 + 0]]).2 0)).lambd
       = [(3 : ℚ)].getD (cv_choice [[0 + 0]]).2 0) :=
  ⟨List.cons_ne_nil _ _, List.cons_ne_nil _ _, rfl,
    (C1_cross_validate_row_major_argmin fiOkL nfW rbW sW [4] [3] [[0 + 0]]
      (update_R rbW sW 4) (List.cons_ne_nil _ _) (List.cons_ne_nil _ _)
      rfl).2.2.2.2.2.2⟩

/- ----------------------------------------------------------------- -/
/- C10                                                                -/
/- ----------------------------------------------------------------- -/

/-- C10: each leave-one-out fold inverts its regularized training matrix with
`faster_inverse` alone — a failure is not retried with a robust inversion but
propagates out of `calc_error` and hence out of `cross_validate`, whose error
leaves the engine with `R`, the distance table and both kernel matrices
already rebuilt (by `update_R`) for the candidate `R` being evaluated, while
`lambda` is still the original one. -/
theorem C10_cv_fold_no_retry_propagates :
    (∀ (fi : List (List ℚ) → Except PyError (List (List ℚ)))
        (nf : List (List ℚ) → ℚ) (kp pots : ℕ → ℕ → ℚ) (nt : ℕ) (lambd : ℚ)
        (idx_test idx_train : List ℕ) (e : PyError),
        fi (cv_B_new kp lambd idx_train) = .error e →
        calc_error fi nf kp pots nt lambd idx_test idx_train = .error e) ∧
    (∀ (fi : List (List ℚ) → Except PyError (List (List ℚ)))
        (nf : List (List ℚ) → ℚ) (rb : Rebuild) (s : CVState) (Rs ls : List ℚ)
        (e : PyError) (s2 : CVState),
        cross_validate fi nf rb s Rs ls = .error (e, s2) →
        s2.lambd = s.lambd ∧ s2.dist_table = rb.tbl s2.R ∧
        s2.k_pot = rb.kp s2.R ∧ s2.k_cross = rb.kc s2.R ∧ s2.R ∈ Rs) ∧
    (∀ (fi : List (List ℚ) → Except PyError (List (List ℚ)))
        (nf : List (List ℚ) → ℚ) (rb : Rebuild) (s : CVState) (R : ℚ)
        (Rs2 ls2 : List ℚ) (lambd : ℚ) (e : PyError),
        0 < s.n_obs →
        calc_error fi nf (rb.kp R) s.pots s.nt lambd [0] (loo_train s.n_obs 0)
          = .error e →
        cross_validate fi nf rb s (R :: Rs2) (lambd :: ls2)
          = .error (e, update_R rb s R)) := by
  refine ⟨?_, ?_, ?_⟩
  · intro fi nf kp pots nt lambd idx_test idx_train e h
    simp only [calc_error, h]
  · intro fi nf rb s Rs ls e s2 h
    cases hscan : cv_scan fi nf rb s Rs ls with
    | error p =>
      obtain ⟨e2, s3⟩ := p
      unfold cross_validate at h
      rw [hscan] at h
      simp only [Except.error.injEq, Prod.mk.injEq] at h
      obtain ⟨_, hs⟩ := h
      subst hs
      obtain ⟨g1, _, _, _, g5, g6, g7, g8⟩ := cv_scan_err hscan
      exact ⟨g1, g5, g6, g7, g8⟩
    | ok pr =>
      obtain ⟨errs2, s3⟩ := pr
      unfold cross_validate at h
      rw [hscan] at h
      cases h
  · intro fi nf rb s R Rs2 ls2 lambd e hn hc
    have hc2 : calc_error fi nf (update_R rb s R).k_pot (update_R rb s R).pots
        (update_R rb s R).nt lambd [0] (loo_train (update_R rb s R).n_obs 0)
        = .error e := hc
    have hfold := fold_err_sum_fail hc2 (update_R rb s R).n_obs hn
    simp only [cross_validate, cv_scan, rowErrs, cv_lambda_err, hfold]

/-- Witness for `C10_cv_fold_no_retry_propagates`: with a fast inversion that
always raises LinAlgError, the first fold of the first candidate fails, the
error surfaces from `cross_validate`, and the abandoned engine state has the
candidate `R = 7`, its rebuilt table and kernel matrices, and the original
`lambda = 5`. -/
theorem C10_witness :
    fiFailL (cv_B_new (rbW.kp 7) 9 (loo_train sW.n_obs 0)) = .error .linAlgError ∧
    calc_error fiFailL nfW (rbW.kp 7) sW.pots sW.nt 9 [0] (loo_train sW.n_obs 0)
      = .error .linAlgError ∧
    0 < sW.n_obs ∧
    cross_validate fiFailL nfW rbW sW [7] [9]
      = .error (.linAlgError, update_R rbW sW 7) ∧
    (update_R rbW sW 7).lambd = sW.lambd ∧
    (update_R rbW sW 7).dist_table = rbW.tbl (update_R rbW sW 7).R ∧
    (update_R rbW sW 7).k_pot = rbW.kp (update_R rbW sW 7).R ∧
    (update_R rbW sW 7).k_cross = rbW.kc (update_R rbW sW 7).R ∧
    (update_R rbW sW 7).R ∈ [(7 : ℚ)] := by
  have ha := C10_cv_fold_no_retry_propagates.1 fiFailL nfW (rbW.kp 7) sW.pots
    sW.nt 9 [0] (loo_train sW.n_obs 0) PyError.linAlgError rfl
  have hcv := C10_cv_fold_no_retry_propagates.2.2 fiFailL nfW rbW sW 7 [] [] 9
    PyError.linAlgError Nat.one_pos ha
  have hb := C10_cv_fold_no_retry_propagates.2.1 fiFailL nfW rbW sW [7] [9]
    PyError.linAlgError (update_R rbW sW 7) hcv
  exact ⟨rfl, ha, Nat.one_pos, hcv, hb.1, hb.2.1, hb.2.2.1, hb.2.2.2.1,
    hb.2.2.2.2⟩

end Lemmas

end KCSD2D
